import Mathlib

/-!
Verification of the markdown rewriter `scripts/mk_spec_light.py`.

The whole program is the single pure function `process_markdown_content`,
a line-oriented rewriting pass.  We embed it shallowly: a document is the
list of its lines (each a `List Char`), the per-line loop body becomes the
`step` function over an explicit `RwState`, and the post-pass (blank-line
collapsing, edge trimming, footer truncation) becomes `postPass`.

The Python regexes used by the source are deterministic enough to be
characterised exactly; each is embedded as an executable function whose
semantics is derived from the regex (see the comment at each definition).
Python's `\s` and `str.strip()` additionally match some non-ASCII Unicode
whitespace, and `\w` matches non-ASCII word characters; the embedding uses
the ASCII sets, which agree with the source on all inputs considered here.
-/

/-- The whitespace class of Python's `\s` and `str.strip()` (ASCII part):
space, tab, newline, carriage return, vertical tab, form feed. -/
def pySpace (c : Char) : Bool :=
  c = ' ' || c = '\t' || c = '\n' || c = '\r' || c = '\x0b' || c = '\x0c'

/-- Python `str.strip()` on a list of characters: drop `pySpace`
characters from both ends. -/
def pyStripL (l : List Char) : List Char :=
  ((l.dropWhile pySpace).reverse.dropWhile pySpace).reverse

/-- Python `content.split('\n')`: always returns at least one (possibly
empty) line; `"".split('\n') == [""]`. -/
def splitNl : List Char → List (List Char)
  | [] => [[]]
  | c :: cs =>
    match splitNl cs with
    | [] => [[c]]
    | g :: gs => if c = '\n' then [] :: g :: gs else (c :: g) :: gs

/-- Python `'\n'.join(lines)`. -/
def joinNl : List (List Char) → List Char
  | [] => []
  | [l] => l
  | l :: ls => l ++ '\n' :: joinNl ls

/-- Does `pat` occur as a contiguous sublist of `l`?  (Python's
`pat in line`.) -/
def containsSub (pat : List Char) : List Char → Bool
  | [] => decide (pat = [])
  | c :: cs => pat.isPrefixOf (c :: cs) || containsSub pat cs

/-- Index of the first occurrence of `pat` in `l`, if any. -/
def findSub (pat : List Char) : List Char → Option Nat
  | [] => if pat = [] then some 0 else none
  | c :: cs =>
    if pat.isPrefixOf (c :: cs) then some 0
    else (findSub pat cs).map (· + 1)

/-- Case-insensitive (ASCII) prefix test: does `l` start with `pat`?
`pat` is given lowercase; the subject is lowercased characterwise,
mirroring `re.IGNORECASE` on an ASCII pattern. -/
def ciPrefix : List Char → List Char → Bool
  | [], _ => true
  | _ :: _, [] => false
  | p :: ps, c :: cs => (c.toLower = p.toLower) && ciPrefix ps cs

example : pyStripL "  a b ".data = "a b".data := by decide
example : splitNl "a\nb".data = ["a".data, "b".data] := by decide
example : splitNl [] = [[]] := by decide
example : joinNl ["a".data, "b".data] = "a\nb".data := by decide
example : containsSub "<!--".data "x <!-- y".data = true := by decide
example : ciPrefix "table".data "TaBle of".data = true := by decide
example : ("ab" : String).data = ['a', 'b'] := rfl

/-- Word-character test for the source's `\w` (ASCII part):
letters, digits, underscore. -/
def wordChar (c : Char) : Bool :=
  c.isAlphanum || c = '_'

/-- Helper for `tocStartB`: after the heading markers, `\s+` then the
case-insensitive literal `Table of Contents`. -/
def wsThenToc (l : List Char) : Bool :=
  match l with
  | [] => false
  | c :: _ => pySpace c && ciPrefix "table of contents".data (l.dropWhile pySpace)

/-- Source line 40, `re.match(r'^##?\s+Table of Contents', line, re.IGNORECASE)`:
one or two `#`, one or more whitespace, then the literal, case-insensitively. -/
def tocStartB (l : List Char) : Bool :=
  match l with
  | '#' :: r => wsThenToc r || (match r with
      | '#' :: r2 => wsThenToc r2
      | _ => false)
  | _ => false

/-- Source line 45, `re.match(r'^##\s+\w', line)`: exactly two `#` (a third
`#` fails the `\s`), one or more whitespace, then a word character. -/
def tocEndB (l : List Char) : Bool :=
  match l with
  | '#' :: '#' :: r =>
    (match r with
     | [] => false
     | c :: _ => pySpace c) &&
    (match r.dropWhile pySpace with
     | [] => false
     | c :: _ => wordChar c)
  | _ => false

/-- Source line 54, `re.sub(r'<!--.*?-->', '', line)`: repeatedly find the
next `<!--` and delete through the first following `-->`; if a `<!--` has
no following `-->`, nothing at or after it can match and the rest is kept.
Fuel bounds the scan (one unit per consumed character suffices). -/
def subCommentsAux : Nat → List Char → List Char
  | _, [] => []
  | 0, l => l
  | fuel + 1, c :: cs =>
    if ("<!--".data).isPrefixOf (c :: cs) then
      match findSub "-->".data (cs.drop 3) with
      | some i => subCommentsAux fuel ((cs.drop 3).drop (i + 3))
      | none => c :: cs
    else c :: subCommentsAux fuel cs

/-- The comment-deleting substitution at source line 54. -/
def subComments (l : List Char) : List Char :=
  subCommentsAux l.length l

/-- Source line 81, the badge regex
`^\s*!\[.*\]\(.*(?:shields\.io|badge\.).*\)\s*$` as a whole-line test:
after stripping outer whitespace the line is `![` … `)` and some `](`
inside is followed (anywhere later, before the final `)`) by
`shields.io` or `badge.`. -/
def badgeB (l : List Char) : Bool :=
  ("![".data).isPrefixOf (pyStripL l) &&
  (match (pyStripL l).reverse with
   | ')' :: _ => true
   | _ => false) &&
  (match findSub "](".data (((pyStripL l).drop 2).dropLast) with
   | some j =>
     containsSub "shields.io".data ((((pyStripL l).drop 2).dropLast).drop (j + 2)) ||
     containsSub "badge.".data ((((pyStripL l).drop 2).dropLast).drop (j + 2))
   | none => false)

/-- Attempt the image pattern `!\[([^\]]*)\]\([^)]+\)` at the head of `l`
(source line 85).  On success returns the replacement `[Image: alt]`
together with the unconsumed rest. -/
def tryImage (l : List Char) : Option (List Char × List Char) :=
  match l with
  | '!' :: '[' :: r =>
    let alt := r.takeWhile (fun c => c ≠ ']')
    (match r.drop alt.length with
     | ']' :: '(' :: r2 =>
       let url := r2.takeWhile (fun c => c ≠ ')')
       if url = [] then none
       else match r2.drop url.length with
         | ')' :: r3 => some ("[Image: ".data ++ alt ++ [']'], r3)
         | _ => none
     | _ => none)
  | _ => none

/-- Attempt the link pattern `\[([^\]]+)\]\([^)]+\)` at the head of `l`
(source line 88).  On success returns the visible text and the rest. -/
def tryLink (l : List Char) : Option (List Char × List Char) :=
  match l with
  | '[' :: r =>
    let txt := r.takeWhile (fun c => c ≠ ']')
    if txt = [] then none
    else match r.drop txt.length with
      | ']' :: '(' :: r2 =>
        let url := r2.takeWhile (fun c => c ≠ ')')
        if url = [] then none
        else match r2.drop url.length with
          | ')' :: r3 => some (txt, r3)
          | _ => none
      | _ => none
  | _ => none

/-- Left-to-right, non-overlapping `re.sub` scan driven by a match
attempt: on failure emit one character and move on. -/
def subScanAux (att : List Char → Option (List Char × List Char)) :
    Nat → List Char → List Char
  | _, [] => []
  | 0, l => l
  | fuel + 1, c :: cs =>
    match att (c :: cs) with
    | some (rep, rest) => rep ++ subScanAux att fuel rest
    | none => c :: subScanAux att fuel cs

/-- Source line 85: `re.sub(r'!\[([^\]]*)\]\([^)]+\)', r'[Image: \1]', line)`. -/
def subImage (l : List Char) : List Char :=
  subScanAux tryImage l.length l

/-- Source line 88: `re.sub(r'\[([^\]]+)\]\([^)]+\)', r'\1', line)`. -/
def subLink (l : List Char) : List Char :=
  subScanAux tryLink l.length l

/-- The three emoji ranges removed at source lines 91-93. -/
def emojiChar (c : Char) : Bool :=
  (0x1F300 ≤ c.val && c.val ≤ 0x1F9FF) ||
  (0x2600 ≤ c.val && c.val ≤ 0x26FF) ||
  (0x2700 ≤ c.val && c.val ≤ 0x27BF)

/-- Source lines 91-93: delete the emoji characters. -/
def stripEmoji (l : List Char) : List Char :=
  l.filter (fun c => !emojiChar c)

/-- Attempt the emphasis pattern `d^n ([^d]+) d^n` at the head of `l`
(source lines 96-101): the bracketed run is the maximal nonempty run of
non-`d` characters and must be followed immediately by `d^n` again. -/
def tryDelim (d : Char) (n : Nat) (l : List Char) :
    Option (List Char × List Char) :=
  if l.take n = List.replicate n d then
    let l2 := l.drop n
    let run := l2.takeWhile (fun c => c ≠ d)
    if run = [] then none
    else
      let l3 := l2.drop run.length
      if l3.take n = List.replicate n d then some (run, l3.drop n)
      else none
  else none

/-- One emphasis substitution `re.sub(d^n([^d]+)d^n, \1, line)`. -/
def subDelim (d : Char) (n : Nat) (l : List Char) : List Char :=
  subScanAux (tryDelim d n) l.length l

example : subComments "a <!-- x --> b".data = "a  b".data := by decide
example : subComments "a <!-- x".data = "a <!-- x".data := by decide
example : subImage "see ![alt text](img.png)!".data = "see [Image: alt text]!".data := by decide
example : subLink "[click here](https://x.io)".data = "click here".data := by decide
example : subDelim '*' 2 "**Maintained by** Team".data = "Maintained by Team".data := by decide
example : subDelim '*' 3 "**bold**".data = "**bold**".data := by decide
example : badgeB "  ![b](https://img.shields.io/x) ".data = true := by decide
example : badgeB "![a](img.png)".data = false := by decide
example : tocStartB "## Table of Contents".data = true := by decide
example : tocStartB "# TABLE OF CONTENTS extra".data = true := by decide
example : tocStartB "### Table of Contents".data = false := by decide
example : tocEndB "## Next".data = true := by decide
example : tocEndB "# Next".data = false := by decide
example : tocEndB "### Next".data = false := by decide

/-- Source line 106, `re.sub(r'\s*#+\s*$', '', line)` (run only when the
left-stripped line starts with `#`): the unique match, if any, is the
suffix consisting of the trailing whitespace run, the `#` run directly
before it (required nonempty), and the maximal whitespace run before
that; it is deleted. -/
def stripTrailingHash (l : List Char) : List Char :=
  let r := l.reverse
  let t := r.takeWhile pySpace
  let r1 := r.drop t.length
  let h := r1.takeWhile (fun c => c = '#')
  if h = [] then l
  else ((r1.drop h.length).dropWhile pySpace).reverse

/-- Source line 108, `re.sub(r'^(\s*)#{4,}(\s+)', r'\1###\2', line)`:
if after the leading whitespace the maximal `#` run has length at least 4
and is followed by a whitespace character, replace that run by `###`. -/
def clampHeading (l : List Char) : List Char :=
  let w := l.takeWhile pySpace
  let l1 := l.drop w.length
  let h := l1.takeWhile (fun c => c = '#')
  let rest := l1.drop h.length
  if (decide (4 ≤ h.length) && (match rest with
      | c :: _ => pySpace c
      | [] => false)) = true then
    w ++ '#' :: '#' :: '#' :: rest
  else l

/-- Source lines 104-108: the heading normalisation, guarded by
`line.lstrip().startswith('#')`. -/
def headingFix (l : List Char) : List Char :=
  match l.dropWhile pySpace with
  | '#' :: _ => clampHeading (stripTrailingHash l)
  | _ => l

/-- Split on `|` characters (Python `str.split('|')`). -/
def splitPipe : List Char → List (List Char)
  | [] => [[]]
  | c :: cs =>
    match splitPipe cs with
    | [] => [[c]]
    | g :: gs => if c = '|' then [] :: g :: gs else (c :: g) :: gs

/-- Is every character of the stripped cell a dash or colon? -/
def dashCell (p : List Char) : Bool :=
  (pyStripL p).all (fun c => c = '-' || c = ':')

/-- Source line 113, the separator regex
`^\s*\|?\s*[-:]+\s*(\|\s*[-:]+\s*)+\|?\s*$` as a whole-line test.
Splitting on `|`: there is at least one pipe; every `|`-part is
whitespace around a single (possibly empty at the two ends) `[-:]` run;
interior parts must be nonempty; and at least two parts are nonempty
(the regex requires two `[-:]+` groups). -/
def sepB (l : List Char) : Bool :=
  match splitPipe l with
  | [] => false
  | [_] => false
  | p0 :: p1 :: rest =>
    let parts := p0 :: p1 :: rest
    let pn := (p1 :: rest).getLast (by simp)
    let mids := (p1 :: rest).dropLast
    parts.all dashCell &&
    mids.all (fun p => decide (pyStripL p ≠ [])) &&
    decide (2 ≤ (if pyStripL p0 = [] then 0 else 1) + mids.length +
      (if pyStripL pn = [] then 0 else 1))

/-- Source line 116, the row regex `^\s*\|.*\|\s*$`: the stripped line
begins and ends with `|` and has length at least 2. -/
def rowB (l : List Char) : Bool :=
  let st := pyStripL l
  2 ≤ st.length &&
  (match st with
   | '|' :: _ => true
   | _ => false) &&
  (match st.reverse with
   | '|' :: _ => true
   | _ => false)

/-- Source line 117: `line.strip().strip('|').split('|')` with each cell
stripped, then empty cells removed (line 118). -/
def rowCells (l : List Char) : List (List Char) :=
  let st := pyStripL l
  let inner := ((st.dropWhile (fun c => c = '|')).reverse.dropWhile
    (fun c => c = '|')).reverse
  ((splitPipe inner).map pyStripL).filter (fun c => decide (c ≠ []))

/-- Join cells with the em-dash separator and bullet prefix
(source line 120): `'• ' + ' — '.join(cells)`. -/
def bulletJoin : List (List Char) → List Char
  | [] => []
  | [c] => c
  | c :: cs => c ++ " — ".data ++ bulletJoin cs

/-- The bulleted replacement line for a table row. -/
def bulletLine (cells : List (List Char)) : List Char :=
  "• ".data ++ bulletJoin cells

/-- Source line 124, `re.sub(r'[ \t]+', ' ', line)`: collapse every run
of spaces and tabs to a single space. -/
def collapseWs : List Char → List Char
  | [] => []
  | [c] => if c = ' ' || c = '\t' then [' '] else [c]
  | c :: c2 :: cs =>
    if c = ' ' || c = '\t' then
      if c2 = ' ' || c2 = '\t' then collapseWs (c2 :: cs)
      else ' ' :: collapseWs (c2 :: cs)
    else c :: collapseWs (c2 :: cs)

example : headingFix "##### Deep Heading".data = "### Deep Heading".data := by decide
example : headingFix "# Title ##".data = "# Title".data := by decide
example : headingFix "# #".data = "#".data := by decide
example : headingFix "#".data = [] := by decide
example : sepB "|---|---|".data = true := by decide
example : sepB "|---|".data = false := by decide
example : sepB " --- | :-: ".data = true := by decide
example : sepB "| A | B |".data = false := by decide
example : rowB "| A | B |".data = true := by decide
example : rowCells "| A | B |".data = ["A".data, "B".data] := by decide
example : bulletLine ["A".data, "B".data] = "• A — B".data := by decide
example : collapseWs "a  \t b".data = "a b".data := by decide

/-- The transient per-document state of `process_markdown_content`
(source lines 22-27).  `atStart` records `i == 0` for the front-matter
check at line 31. -/
structure RwState where
  atStart : Bool
  inCode : Bool
  codeBuffer : List (List Char)
  codeLang : List Char
  skipYaml : Bool
  skipToc : Bool
  output : List (List Char)
deriving DecidableEq

/-- The state at the top of the loop. -/
def initState : RwState :=
  ⟨true, false, [], [], false, false, []⟩

/-- Source lines 60-126: the part of the loop body from the code-fence
check onward, applied to the (possibly comment-stripped) line. -/
def stepFence (s : RwState) (line : List Char) : RwState :=
  if (pyStripL line).take 3 = "```".data then
    if s.inCode = false then
      { s with inCode := true,
               codeLang := pyStripL ((pyStripL line).drop 3),
               codeBuffer := [line] }
    else
      { s with output := s.output ++ s.codeBuffer ++ [line],
               inCode := false, codeBuffer := [], codeLang := [] }
  else if s.inCode = true then
    { s with codeBuffer := s.codeBuffer ++ [line] }
  else if badgeB line = true then s
  else
    let l1 := subImage line
    let l2 := subLink l1
    let l3 := stripEmoji l2
    let l4 := subDelim '*' 3 l3
    let l5 := subDelim '*' 2 l4
    let l6 := subDelim '*' 1 l5
    let l7 := subDelim '_' 3 l6
    let l8 := subDelim '_' 2 l7
    let l9 := subDelim '_' 1 l8
    let la := headingFix l9
    if (containsSub "|".data la && !s.inCode && !containsSub "`".data la)
        = true then
      if sepB la = true then s
      else if rowB la = true then
        let cells := rowCells la
        if cells = [] then s
        else { s with output := s.output ++ [bulletLine cells] }
      else { s with output := s.output ++ [collapseWs la] }
    else { s with output := s.output ++ [collapseWs la] }

/-- Source lines 52-58: the HTML-comment handling, then the rest of the
loop body. -/
def stepComment (s : RwState) (line : List Char) : RwState :=
  if (containsSub "<!--".data line && containsSub "-->".data line) = true then
    stepFence s (subComments line)
  else if containsSub "<!--".data line = true then s
  else if containsSub "-->".data line = true then s
  else stepFence s line

/-- Source lines 29-126: one iteration of the main loop.  Every branch
clears `atStart` for the following line. -/
def step (s : RwState) (line : List Char) : RwState :=
  let s0 := { s with atStart := false }
  if (s.atStart && decide (pyStripL line = "---".data)) = true then
    { s0 with skipYaml := true }
  else if s.skipYaml = true then
    if pyStripL line = "---".data then { s0 with skipYaml := false } else s0
  else if tocStartB line = true then
    { s0 with skipToc := true }
  else
    let s1 := if (s.skipToc && tocEndB line) = true
      then { s0 with skipToc := false } else s0
    if s1.skipToc = true then s1
    else stepComment s1 line

/-- Source lines 128-138: keep at most two consecutive blank lines.
`k` is the number of blank lines immediately preceding. -/
def blankCollapse : List (List Char) → Nat → List (List Char)
  | [], _ => []
  | l :: ls, k =>
    if pyStripL l = [] then
      if k + 1 ≤ 2 then l :: blankCollapse ls (k + 1)
      else blankCollapse ls (k + 1)
    else l :: blankCollapse ls 0

/-- Source lines 141-142: remove leading blank lines. -/
def trimFront (ls : List (List Char)) : List (List Char) :=
  ls.dropWhile (fun l => decide (pyStripL l = []))

/-- Source lines 143-144: remove trailing blank lines. -/
def trimBack (ls : List (List Char)) : List (List Char) :=
  (ls.reverse.dropWhile (fun l => decide (pyStripL l = []))).reverse

/-- Source line 152, `re.search(r'^\*\*Maintained by\*\*|^Maintained by:',
line, re.IGNORECASE)`: both alternatives are anchored, so this is a
case-insensitive prefix test. -/
def footerB (l : List Char) : Bool :=
  ciPrefix "**maintained by**".data l || ciPrefix "maintained by:".data l

/-- Source lines 146-158: scan the last (up to) 15 lines for the first
attribution-footer line; if found, truncate there and also drop an
immediately preceding bare `---` line. -/
def footerScan (result : List (List Char)) : List (List Char) :=
  match (List.range result.length).find?
      (fun i => decide (result.length - min 15 result.length ≤ i) &&
        footerB (result.getD i [])) with
  | some i =>
    if pyStripL ((result.take i).getLastD []) = "---".data then
      (result.take i).dropLast
    else result.take i
  | none => result

/-- Source lines 128-158: the whole post-pass over the emitted lines. -/
def postPass (output : List (List Char)) : List (List Char) :=
  footerScan (trimBack (trimFront (blankCollapse output 0)))

/-- Source lines 19-160: the complete rewriter
`process_markdown_content(content)`. -/
def process_markdown_content (content : String) : String :=
  String.mk (joinNl (postPass
    (((splitNl content.data).foldl step initState).output)))

example : process_markdown_content "" = "" := by decide
example : process_markdown_content "hello  world" = "hello world" := by decide
example : process_markdown_content "---\nTitle: X\n---\nBody" = "Body" := by decide
example : process_markdown_content "| A | B |\n|---|---|\n| 1 | 2 |" =
    "• A — B\n• 1 — 2" := by decide
example : process_markdown_content "```\n<!-- note\n```" = "```\n```" := by decide
example : process_markdown_content "content\n\n---\n**Maintained by** Team" =
    "content\n\n---\nMaintained by Team" := by decide
example : process_markdown_content "## Table of Contents\n- a\n# Next\nbody" =
    "" := by decide
example : process_markdown_content "# #" = "#" := by decide
example : process_markdown_content "#" = "" := by decide
example : process_markdown_content "a\n\n\n\n\nb" = "a\n\n\nb" := by decide
example : process_markdown_content "content\n\n\nMaintained by: T" =
    "content\n\n" := by decide
example : process_markdown_content "x\n\n---\nMaintained by: T" = "x\n" := by decide

/-- Source line 14: the environment toggle
`PRESERVE_ALL_CODE = os.getenv("PRESERVE_ALL_CODE", "1") == "1"`.
The environment is modelled as a finite map from variable names to
optional values. -/
def PRESERVE_ALL_CODE (env : String → Option String) : Bool :=
  ((env "PRESERVE_ALL_CODE").getD "1") == "1"

/-- The per-document rewrite together with the configuration flag of
source line 14.  The flag is computed by the script but no line of
`process_markdown_content` (nor of `process_file`) reads it, which this
definition makes explicit: the parameter does not occur in the body. -/
def processWithCodeFlag (_preserveAllCode : Bool) (content : String) :
    String :=
  process_markdown_content content

/-- C1: the claim asserts byte-for-byte preservation of balanced fenced
code blocks regardless of interior content, explicitly including interior
lines containing HTML comment delimiters.  The code contradicts this (and
its own stated intent of preserving all code): the HTML-comment check at
source lines 52-58 runs before the `in_code_block` check at line 76, so an
interior code line containing `<!--` without `-->` is discarded.  At the
failing input, the interior line `<!-- note` is absent from the output. -/
theorem c1_comment_line_dropped_inside_fence :
    process_markdown_content "```\n<!-- note\n```" = "```\n```" ∧
    containsSub "<!-- note".data
      (process_markdown_content "```\n<!-- note\n```").data = false := by
  constructor
  · decide
  · decide

/-- C2: the claim (and the spec's own example) asserts that a document
ending `"content\n\n---\n**Maintained by** Team"` is truncated to end at
`content`.  The code contradicts this: bold emphasis is stripped at source
line 97 before the footer scan at line 152 runs, so the scanned line reads
`Maintained by Team`, which matches neither footer alternative
(`^\*\*Maintained by\*\*` needs the literal asterisks, `^Maintained by:`
needs a colon).  The footer and the `---` rule are retained. -/
theorem c2_footer_not_truncated :
    process_markdown_content "content\n\n---\n**Maintained by** Team" =
      "content\n\n---\nMaintained by Team" := by
  decide

/-- C8: the rewriter is a total function over every input string — the
embedding `process_markdown_content` is a total Lean function, so every
input has an output and no error outcome exists — and the empty input
string yields the empty output string. -/
theorem c8_total_and_empty :
    process_markdown_content "" = "" ∧
    ∀ content : String, ∃ out : String,
      process_markdown_content content = out := by
  exact ⟨by decide, fun content => ⟨process_markdown_content content, rfl⟩⟩

/-- C10: the rewrite output is independent of the `PRESERVE_ALL_CODE`
environment variable: the flag computed at source line 14 is never
consulted by `process_markdown_content`, so two runs under any two
environments produce identical output for every input. -/
theorem c10_env_toggle_noninterference :
    ∀ (env1 env2 : String → Option String) (content : String),
      processWithCodeFlag (PRESERVE_ALL_CODE env1) content =
        processWithCodeFlag (PRESERVE_ALL_CODE env2) content :=
  fun _ _ _ => rfl

/-- C3 counterexample: the claim says TOC suppression ends at the next
first- or second-level heading, and in particular that a `#` heading
following the TOC heading appears in the output.  In the code the
suppression-ending test is `re.match(r'^##\s+\w', line)` (source line 45),
which a first-level heading does not satisfy, so `# Next` and everything
after it are discarded: the output here is empty. -/
theorem c3_counterexample :
    process_markdown_content "## Table of Contents\n- a\n# Next\nbody" = "" ∧
    containsSub "# Next".data
      (process_markdown_content
        "## Table of Contents\n- a\n# Next\nbody").data = false := by
  constructor
  · decide
  · decide

/-- C4 counterexample: `"# #"` is already-rewritten prose in the claim's
sense (no code fence, front matter, TOC heading or footer, and no
emphasis, image, link or table markup; it is itself a rewrite output,
e.g. of `"🌀# #"`), yet the rewrite is not idempotent on it: the first
application strips the trailing `#` leaving `"#"`, and the second strips
that line to emptiness (source line 106 removes a trailing `#` run
together with the whitespace before it). -/
theorem c4_counterexample :
    process_markdown_content (process_markdown_content "# #") ≠
      process_markdown_content "# #" := by
  decide

/-- C7 counterexample: the claim asserts the output never has trailing
blank lines.  When the footer scan (source lines 146-158) truncates, it
runs after the edge-trimming at lines 141-144, so blank lines directly
before the footer line become trailing blank lines of the output: here
the output is `"content\n\n"`, whose final two lines are blank. -/
theorem c7_counterexample :
    process_markdown_content "content\n\n\nMaintained by: T" =
      "content\n\n" ∧
    (splitNl (process_markdown_content
      "content\n\n\nMaintained by: T").data).getLastD ['x'] = [] := by
  constructor
  · decide
  · decide

/-- A successful image match contains a `[`. -/
theorem mem_of_tryImage (l : List Char) (pr : List Char × List Char)
    (h : tryImage l = some pr) : '[' ∈ l := by
  unfold tryImage at h
  split at h
  · simp
  · exact absurd h (by simp)

/-- A successful link match contains a `[`. -/
theorem mem_of_tryLink (l : List Char) (pr : List Char × List Char)
    (h : tryLink l = some pr) : '[' ∈ l := by
  unfold tryLink at h
  split at h
  · simp
  · exact absurd h (by simp)

/-- A successful emphasis match (with at least one delimiter) contains
the delimiter character. -/
theorem mem_of_tryDelim (d : Char) (n : Nat) (l : List Char)
    (pr : List Char × List Char) (h : tryDelim d (n + 1) l = some pr) :
    d ∈ l := by
  unfold tryDelim at h
  split at h
  case isTrue ht =>
    have : l.take (n + 1) ≠ [] := by
      rw [ht]; simp
    match l, this with
    | c :: cs, _ =>
      have : c = d := by
        have := congrArg (fun x => x.headD 'x') ht
        simpa using this
      simp [this]
  case isFalse => exact absurd h (by simp)

/-- If the match attempt can only succeed on lists containing `ch`, the
scanning substitution is the identity on lists avoiding `ch`. -/
theorem subScanAux_id (att : List Char → Option (List Char × List Char))
    (ch : Char) (hatt : ∀ s pr, att s = some pr → ch ∈ s) :
    ∀ (fuel : Nat) (l : List Char), ch ∉ l → subScanAux att fuel l = l := by
  intro fuel
  induction fuel with
  | zero => intro l _; cases l <;> rfl
  | succ n ih =>
    intro l h
    cases l with
    | nil => rfl
    | cons c cs =>
      have hnone : att (c :: cs) = none := by
        cases ha : att (c :: cs) with
        | none => rfl
        | some pr => exact absurd (hatt _ _ ha) h
      have hch : ch ∉ cs := fun hm => h (List.mem_cons_of_mem c hm)
      simp [subScanAux, hnone, ih cs hch]

/-- The image substitution is the identity on lines without `[`. -/
theorem subImage_id (l : List Char) (h : '[' ∉ l) : subImage l = l :=
  subScanAux_id tryImage '[' mem_of_tryImage l.length l h

/-- The link substitution is the identity on lines without `[`. -/
theorem subLink_id (l : List Char) (h : '[' ∉ l) : subLink l = l :=
  subScanAux_id tryLink '[' mem_of_tryLink l.length l h

/-- The emphasis substitutions are the identity on lines without the
delimiter. -/
theorem subDelim_id (d : Char) (n : Nat) (l : List Char) (h : d ∉ l) :
    subDelim d (n + 1) l = l :=
  subScanAux_id (tryDelim d (n + 1)) d (mem_of_tryDelim d n) l.length l h

/-- Emoji removal is the identity on emoji-free lines. -/
theorem stripEmoji_id (l : List Char) (h : ∀ c ∈ l, emojiChar c = false) :
    stripEmoji l = l := by
  unfold stripEmoji
  rw [List.filter_eq_self]
  intro a ha
  simp [h a ha]

/-- Membership transfers out of `pyStripL`. -/
theorem mem_of_mem_pyStripL (c : Char) (l : List Char)
    (h : c ∈ pyStripL l) : c ∈ l := by
  unfold pyStripL at h
  rw [List.mem_reverse] at h
  have h2 := ((l.dropWhile pySpace).reverse.dropWhile_sublist pySpace).mem h
  rw [List.mem_reverse] at h2
  exact (l.dropWhile_sublist pySpace).mem h2

/-- The stripped line is a prefix of the front-stripped line: head
characters agree. -/
theorem pyStripL_head (c : Char) (rest l : List Char)
    (h : pyStripL l = c :: rest) :
    ∃ rest2, l.dropWhile pySpace = c :: rest2 := by
  have hsplit : l.dropWhile pySpace =
      pyStripL l ++ ((l.dropWhile pySpace).reverse.takeWhile pySpace).reverse := by
    unfold pyStripL
    rw [← List.reverse_append, List.takeWhile_append_dropWhile,
      List.reverse_reverse]
  rw [h] at hsplit
  exact ⟨_, hsplit⟩

/-- A singleton pattern occurs exactly when the character is a member. -/
theorem containsSub_singleton (c : Char) (l : List Char) :
    containsSub [c] l = true ↔ c ∈ l := by
  induction l with
  | nil => simp [containsSub]
  | cons x xs ih =>
    simp only [containsSub, List.isPrefixOf, Bool.or_eq_true, ih]
    constructor
    · rintro (h | h)
      · simp only [Bool.and_eq_true, beq_iff_eq] at h
        exact h.1 ▸ List.mem_cons_self x xs
      · exact List.mem_cons_of_mem x h
    · intro h
      rcases List.mem_cons.mp h with rfl | h
      · left; simp [List.isPrefixOf]
      · right; exact h

/-- The backquote character, written via its code point. -/
def backquote : Char := Char.ofNat 96

/-- A matching table row strips to a line beginning with a pipe. -/
theorem rowB_shape (l : List Char) (h : rowB l = true) :
    ∃ rest, pyStripL l = '|' :: rest := by
  unfold rowB at h
  simp only [Bool.and_eq_true] at h
  obtain ⟨⟨-, h2⟩, -⟩ := h
  cases hst : pyStripL l with
  | nil => rw [hst] at h2; exact absurd h2 (by simp)
  | cons c cs =>
    rw [hst] at h2
    split at h2
    case h_1 heq => exact ⟨cs, by injection heq with h3 h4; rw [h3]⟩
    case h_2 => exact absurd h2 (by simp)

/-- Helper facts for lines that strip to a pipe-initial line. -/
theorem dropWhile_head_of_rowB (l : List Char) (rest : List Char)
    (h : pyStripL l = '|' :: rest) :
    ∃ rest2, l.dropWhile pySpace = '|' :: rest2 :=
  pyStripL_head '|' rest l h

/-- A pipe-initial stripped line is not a badge image line. -/
theorem badgeB_false_of_rowB (l : List Char) (rest : List Char)
    (h : pyStripL l = '|' :: rest) : badgeB l = false := by
  unfold badgeB
  rw [h]
  simp [List.isPrefixOf]

/-- A pipe-initial stripped line does not begin a code fence. -/
theorem fence_false_of_no_backquote (l : List Char) (h : backquote ∉ l) :
    ¬ (pyStripL l).take 3 = "```".data := by
  intro heq
  have hmem : backquote ∈ (pyStripL l).take 3 := by
    rw [heq]
    have : ("```".data) = [backquote, backquote, backquote] := by decide
    rw [this]; simp
  exact h (mem_of_mem_pyStripL _ _ (((pyStripL l).take_sublist 3).mem hmem))

/-- A line whose whitespace-stripped form begins with a pipe does not
match the TOC-start regex. -/
theorem tocStartB_false_of_rowB (l : List Char) (rest : List Char)
    (h : pyStripL l = '|' :: rest) : tocStartB l = false := by
  obtain ⟨rest2, hd⟩ := dropWhile_head_of_rowB l rest h
  unfold tocStartB
  split
  case h_1 r =>
    rw [List.dropWhile_cons] at hd
    have hps : pySpace '#' = false := by decide
    rw [hps] at hd
    simp only [Bool.false_eq_true, if_false] at hd
    injection hd with hd1 _
    exact absurd hd1 (by decide)
  case h_2 => rfl

/-- A pipe-initial stripped line does not strip to the front-matter
delimiter. -/
theorem notYamlDelim_of_rowB (l : List Char) (rest : List Char)
    (h : pyStripL l = '|' :: rest) : pyStripL l ≠ "---".data := by
  rw [h]
  intro heq
  have h2 := congrArg (fun x => x.headD 'x') heq
  simp at h2

/-- A matching (non-separator) table row with at least one nonempty cell
is re-emitted by the fence-and-onward stage as the single bulleted line
joining its cells. -/
theorem stepFence_row (s : RwState) (l : List Char)
    (hcode : s.inCode = false)
    (hbq : backquote ∉ l)
    (hlb : '[' ∉ l) (hstar : '*' ∉ l) (hund : '_' ∉ l)
    (hemoji : ∀ c ∈ l, emojiChar c = false)
    (hrow : rowB l = true) (hsep : sepB l = false)
    (hcells : rowCells l ≠ []) :
    stepFence s l = { s with output := s.output ++ [bulletLine (rowCells l)] } := by
  obtain ⟨rest, hstp⟩ := rowB_shape l hrow
  have hfence := fence_false_of_no_backquote l hbq
  have hbadge := badgeB_false_of_rowB l rest hstp
  have h1 : subImage l = l := subImage_id l hlb
  have h2 : subLink l = l := subLink_id l hlb
  have h3 : stripEmoji l = l := stripEmoji_id l hemoji
  have h4 : subDelim '*' 3 l = l := subDelim_id '*' 2 l hstar
  have h5 : subDelim '*' 2 l = l := subDelim_id '*' 1 l hstar
  have h6 : subDelim '*' 1 l = l := subDelim_id '*' 0 l hstar
  have h7 : subDelim '_' 3 l = l := subDelim_id '_' 2 l hund
  have h8 : subDelim '_' 2 l = l := subDelim_id '_' 1 l hund
  have h9 : subDelim '_' 1 l = l := subDelim_id '_' 0 l hund
  have hha : headingFix l = l := by
    obtain ⟨rest2, hd⟩ := dropWhile_head_of_rowB l rest hstp
    unfold headingFix
    rw [hd]
    split
    case h_1 heq => injection heq with hc _; exact absurd hc (by decide)
    case h_2 => rfl
  have hpipe : containsSub "|".data l = true := by
    have : ("|".data) = ['|'] := by decide
    rw [this, containsSub_singleton]
    exact mem_of_mem_pyStripL '|' l (by rw [hstp]; exact List.mem_cons_self _ _)
  have hbtick : containsSub "`".data l = false := by
    have : ("`".data) = [backquote] := by decide
    rw [this]
    cases hcs : containsSub [backquote] l with
    | false => rfl
    | true => exact absurd ((containsSub_singleton backquote l).mp hcs) hbq
  unfold stepFence
  rw [if_neg hfence]
  simp only [hcode, h1, h2, h3, h4, h5, h6, h7, h8, h9, hha, hbadge,
    hpipe, hbtick, hsep, hrow, Bool.false_eq_true, if_false,
    Bool.not_false, Bool.and_true, Bool.true_and, Bool.and_self,
    if_true]
  simp [hcells]

/-- C6: table flattening.  The three-line input `| A | B |`, `|---|---|`,
`| 1 | 2 |` produces exactly the two output lines `• A — B` and `• 1 — 2`
(the separator row produces no output line); and in general a full table
row (leading and trailing pipe after stripping, source line 116) that is
not a separator row, contains no backtick, no markup characters and no
emoji, and has at least one nonempty cell, is re-emitted by the loop body
as the single bulleted line joining its trimmed nonempty cells. -/
theorem c6_table_flattening :
    (process_markdown_content "| A | B |\n|---|---|\n| 1 | 2 |" =
      "• A — B\n• 1 — 2") ∧
    ∀ (s : RwState) (l : List Char),
      s.skipYaml = false → s.skipToc = false → s.inCode = false →
      containsSub "<!--".data l = false → containsSub "-->".data l = false →
      '[' ∉ l → '*' ∉ l → '_' ∉ l → backquote ∉ l →
      (∀ c ∈ l, emojiChar c = false) →
      rowB l = true → sepB l = false → rowCells l ≠ [] →
      step s l = { s with atStart := false,
                          output := s.output ++ [bulletLine (rowCells l)] } := by
  refine ⟨by decide, ?_⟩
  intro s l hsy hstoc hic hc1 hc2 hlb hstar hund hbq hemoji hrow hsep hcells
  obtain ⟨rest, hstp⟩ := rowB_shape l hrow
  have hyaml : decide (pyStripL l = "---".data) = false :=
    decide_eq_false (notYamlDelim_of_rowB l rest hstp)
  have htoc := tocStartB_false_of_rowB l rest hstp
  obtain ⟨a, ic, cb, cl, sy, stc, out⟩ := s
  replace hsy : sy = false := hsy
  replace hstoc : stc = false := hstoc
  replace hic : ic = false := hic
  subst hsy hstoc hic
  unfold step
  simp only [hyaml, Bool.and_false, htoc, Bool.false_and, Bool.false_eq_true,
    if_false, ite_false]
  unfold stepComment
  simp only [hc1, hc2, Bool.false_and, Bool.false_eq_true, if_false, ite_false]
  exact stepFence_row _ l rfl hbq hlb hstar hund hemoji hrow hsep hcells

/-- C6 witness: the general part of `c6_table_flattening` applied to the
concrete row `| A | B |` in a clean mid-document state. -/
theorem c6_witness :
    rowB "| A | B |".data = true ∧
    step ⟨false, false, [], [], false, false, []⟩ "| A | B |".data =
      ⟨false, false, [], [], false, false,
        [] ++ [bulletLine (rowCells "| A | B |".data)]⟩ :=
  ⟨by decide,
    c6_table_flattening.2 ⟨false, false, [], [], false, false, []⟩
      ("| A | B |".data) rfl rfl rfl (by decide) (by decide) (by decide)
      (by decide) (by decide) (by decide) (by decide) (by decide) (by decide)
      (by decide)⟩

/-- C3 (amended): while TOC suppression is active, a line matching
`^##\s+\w` (exactly two heading markers, whitespace, a word character —
source line 45) ends suppression and is processed exactly as it would be
with suppression off, while any other line not itself a TOC heading —
including a first-level `#` heading — is discarded with the state
otherwise unchanged. -/
theorem c3_amended_toc_ends_only_at_h2 :
    ∀ (s : RwState) (l : List Char),
      s.skipYaml = false → s.atStart = false → s.skipToc = true →
      tocStartB l = false →
      (tocEndB l = true → step s l = step { s with skipToc := false } l) ∧
      (tocEndB l = false → step s l = { s with atStart := false }) := by
  intro s l hsy hat hstoc htoc
  obtain ⟨a, ic, cb, cl, sy, stc, out⟩ := s
  replace hsy : sy = false := hsy
  replace hat : a = false := hat
  replace hstoc : stc = true := hstoc
  subst hsy hat hstoc
  constructor
  · intro hend
    simp [step, htoc, hend]
  · intro hend
    simp [step, htoc, hend]

/-- C3 amended witness: in TOC-suppression state, the first-level heading
`# Next` is discarded (state unchanged), while `## Next` ends suppression
and is processed as usual. -/
theorem c3_amended_witness :
    (tocEndB "# Next".data = false ∧
      step ⟨false, false, [], [], false, true, []⟩ "# Next".data =
        ⟨false, false, [], [], false, true, []⟩) ∧
    (tocEndB "## Next".data = true ∧
      step ⟨false, false, [], [], false, true, []⟩ "## Next".data =
        step ⟨false, false, [], [], false, false, []⟩ "## Next".data) :=
  ⟨⟨by decide,
    (c3_amended_toc_ends_only_at_h2 ⟨false, false, [], [], false, true, []⟩
      ("# Next".data) rfl rfl rfl (by decide)).2 (by decide)⟩,
   ⟨by decide,
    (c3_amended_toc_ends_only_at_h2 ⟨false, false, [], [], false, true, []⟩
      ("## Next".data) rfl rfl rfl (by decide)).1 (by decide)⟩⟩

/-- C5: front-matter suppression.  The input `"---\nTitle: X\n---\nBody"`
rewrites to exactly `"Body"`; and for every document whose first line
strips to the bare `---` delimiter while no later line does, every line is
discarded (the `skip_yaml` flag set at source line 32 is never cleared)
and the output is the empty string. -/
theorem c5_front_matter :
    (process_markdown_content "---\nTitle: X\n---\nBody" = "Body") ∧
    ∀ (content : String) (l0 : List Char) (ls : List (List Char)),
      splitNl content.data = l0 :: ls →
      pyStripL l0 = "---".data →
      (∀ l ∈ ls, pyStripL l ≠ "---".data) →
      process_markdown_content content = "" := by
  refine ⟨by decide, ?_⟩
  intro content l0 ls hsplit h0 hrest
  unfold process_markdown_content
  rw [hsplit]
  have h1 : step initState l0 = ⟨false, false, [], [], true, false, []⟩ := by
    simp [step, initState, h0]
  have habs : ∀ (ms : List (List Char)),
      (∀ l ∈ ms, pyStripL l ≠ "---".data) →
      ms.foldl step ⟨false, false, [], [], true, false, []⟩ =
        ⟨false, false, [], [], true, false, []⟩ := by
    intro ms
    induction ms with
    | nil => intro _; rfl
    | cons m ms2 ih =>
      intro hm
      have hstep : step ⟨false, false, [], [], true, false, []⟩ m =
          ⟨false, false, [], [], true, false, []⟩ := by
        simp [step, hm m (List.mem_cons_self m ms2)]
      rw [List.foldl_cons, hstep]
      exact ih (fun l hl => hm l (List.mem_cons_of_mem m hl))
  rw [List.foldl_cons, h1, habs ls hrest]
  decide

/-- C5 witness: the general part of `c5_front_matter` applied to the
two-line document `---`, `A`, whose front matter never closes. -/
theorem c5_witness :
    (splitNl ("---\nA" : String).data = ["---".data, "A".data] ∧
     pyStripL "---".data = "---".data ∧
     (∀ l ∈ ["A".data], pyStripL l ≠ "---".data)) ∧
    process_markdown_content "---\nA" = "" :=
  ⟨⟨by decide, by decide, by decide⟩,
   c5_front_matter.2 "---\nA" ("---".data) ["A".data] (by decide) (by decide)
     (by decide)⟩

/-- If the fence-and-onward stage ends in code mode, it emitted nothing:
the only branches that append to `output` (the closing flush at source
line 70 and the prose emissions at lines 120 and 126) leave the machine
out of code mode. -/
theorem stepFence_output_of_inCode (s : RwState) (l : List Char) :
    (stepFence s l).inCode = true → (stepFence s l).output = s.output := by
  obtain ⟨a, ic, cb, cl, sy, stc, out⟩ := s
  cases ic with
  | true =>
    simp only [stepFence]
    split
    · intro h
      simp at h
    · intro _
      rfl
  | false =>
    simp only [stepFence]
    split
    · intro _
      rfl
    · repeat' split
      all_goals intro h
      all_goals first
        | rfl
        | simp at h

/-- Comment handling preserves the emitted output whenever the iteration
ends in code mode. -/
theorem stepComment_output_of_inCode (s : RwState) (l : List Char) :
    (stepComment s l).inCode = true → (stepComment s l).output = s.output := by
  unfold stepComment
  split
  · exact stepFence_output_of_inCode s (subComments l)
  · split
    · intro _
      rfl
    · split
      · intro _
        rfl
      · exact stepFence_output_of_inCode s l

/-- If a loop iteration ends in code mode it emitted nothing. -/
theorem step_output_of_inCode (s : RwState) (l : List Char) :
    (step s l).inCode = true → (step s l).output = s.output := by
  obtain ⟨a, ic, cb, cl, sy, stc, out⟩ := s
  simp only [step]
  repeat' split
  all_goals intro h
  all_goals first
    | rfl
    | simp at h
    | exact stepComment_output_of_inCode _ l h

/-- If the machine is in code mode after every nonempty prefix of `ls`,
then processing `ls` emits nothing. -/
theorem foldl_output_of_inCode (s : RwState) (ls : List (List Char))
    (H : ∀ n, n < ls.length →
      ((ls.take (n + 1)).foldl step s).inCode = true) :
    (ls.foldl step s).output = s.output := by
  induction ls generalizing s with
  | nil => rfl
  | cons m ms ih =>
    have h1 : (step s m).inCode = true := by
      have h0 := H 0 (by simp)
      simpa using h0
    have hout := step_output_of_inCode s m h1
    rw [List.foldl_cons]
    rw [ih (step s m) ?_]
    · exact hout
    · intro n hn
      have h2 := H (n + 1) (by simpa using Nat.succ_lt_succ hn)
      simpa using h2

/-- C9: if a code fence opens (the machine is out of code mode after the
prefix `pre` and in code mode after every nonempty prefix of `rest`, the
first line of `rest` being the opening fence) and never closes, the whole
rewrite output equals the post-pass of the lines emitted for `pre` alone:
the opening fence line and every subsequent line are absent from the
output, the accumulated code buffer never being flushed. -/
theorem c9_unclosed_fence_drops_remainder :
    ∀ (content : String) (pre rest : List (List Char)),
      splitNl content.data = pre ++ rest →
      (pre.foldl step initState).inCode = false →
      (∀ n, n < rest.length →
        ((pre ++ rest.take (n + 1)).foldl step initState).inCode = true) →
      process_markdown_content content =
        String.mk (joinNl (postPass ((pre.foldl step initState).output))) := by
  intro content pre rest hsplit _hopen H
  unfold process_markdown_content
  rw [hsplit, List.foldl_append]
  rw [foldl_output_of_inCode (pre.foldl step initState) rest ?_]
  intro n hn
  have h2 := H n hn
  rw [List.foldl_append] at h2
  exact h2

/-- C9 witness: in `"a\n```\nx"` the fence opens after the first line and
never closes; the output equals the post-pass of the prefix `["a"]`
alone (namely `"a"`). -/
theorem c9_witness :
    ((["a".data].foldl step initState).inCode = false ∧
     (∀ n, n < (["```".data, "x".data] : List (List Char)).length →
       ((["a".data] ++ (["```".data, "x".data] : List (List Char)).take
         (n + 1)).foldl step initState).inCode = true)) ∧
    process_markdown_content "a\n```\nx" =
      String.mk (joinNl (postPass ((["a".data].foldl step initState).output))) :=
  ⟨⟨by decide, by decide⟩,
   c9_unclosed_fence_drops_remainder "a\n```\nx" ["a".data]
     ["```".data, "x".data] (by decide) (by decide) (by decide)⟩

example : process_markdown_content "a\n```\nx" = "a" := by decide

/-- Three consecutive blank lines occur somewhere in the list. -/
def hasTripleBlank : List (List Char) → Bool
  | a :: b :: c :: rest =>
    (decide (pyStripL a = []) && decide (pyStripL b = []) &&
      decide (pyStripL c = [])) || hasTripleBlank (b :: c :: rest)
  | _ => false

/-- After two blanks have just been kept, the next kept line (if any) is
nonblank. -/
theorem bc_head_nonblank :
    ∀ (ls : List (List Char)) (k : Nat), 2 ≤ k →
    blankCollapse ls k = [] ∨
    ∃ m ms, blankCollapse ls k = m :: ms ∧ pyStripL m ≠ [] := by
  intro ls
  induction ls with
  | nil => intro k _; left; rfl
  | cons a as ih =>
    intro k hk
    by_cases hb : pyStripL a = []
    · have h2 : ¬ (k + 1 ≤ 2) := by omega
      simp only [blankCollapse, if_pos hb, if_neg h2]
      exact ih (k + 1) (by omega)
    · right
      refine ⟨a, blankCollapse as 0, ?_, hb⟩
      simp only [blankCollapse, if_neg hb]

/-- After at least one blank has just been kept, the collapse output
cannot begin with two blank lines. -/
theorem bc_two_head :
    ∀ (ls : List (List Char)) (k : Nat), 1 ≤ k →
    ∀ m ms, blankCollapse ls k = m :: ms → pyStripL m = [] →
    ms = [] ∨ ∃ m2 ms2, ms = m2 :: ms2 ∧ pyStripL m2 ≠ [] := by
  intro ls
  induction ls with
  | nil => intro k _ m ms h _; exact absurd h (by simp [blankCollapse])
  | cons a as ih =>
    intro k hk m ms h hbm
    by_cases hb : pyStripL a = []
    · by_cases h2 : k + 1 ≤ 2
      · have hk1 : k = 1 := by omega
        subst hk1
        simp only [blankCollapse, if_pos hb, if_pos h2] at h
        injection h with h3 h4
        rcases bc_head_nonblank as 2 (by omega) with hnil | ⟨m2, ms2, heq, hnb⟩
        · left; rw [← h4, hnil]
        · right; exact ⟨m2, ms2, by rw [← h4, heq], hnb⟩
      · simp only [blankCollapse, if_pos hb, if_neg h2] at h
        exact ih (k + 1) (by omega) m ms h hbm
    · simp only [blankCollapse, if_neg hb] at h
      injection h with h3 h4
      rw [← h3] at hbm
      exact absurd hbm hb

/-- The blank-line collapse never leaves three consecutive blank lines. -/
theorem bc_no_triple :
    ∀ (ls : List (List Char)) (k : Nat),
    hasTripleBlank (blankCollapse ls k) = false := by
  intro ls
  induction ls with
  | nil => intro k; rfl
  | cons a as ih =>
    intro k
    by_cases hb : pyStripL a = []
    · by_cases h2 : k + 1 ≤ 2
      · simp only [blankCollapse, if_pos hb, if_pos h2]
        cases hX : blankCollapse as (k + 1) with
        | nil => rfl
        | cons b X2 =>
          cases hX2 : X2 with
          | nil => rfl
          | cons c X3 =>
            have htail : hasTripleBlank (b :: c :: X3) = false := by
              have h5 := ih (k + 1)
              rw [hX, hX2] at h5
              exact h5
            by_cases hbb : pyStripL b = []
            · have h3 := bc_two_head as (k + 1) (by omega) b X2 hX hbb
              rw [hX2] at h3
              rcases h3 with h3 | ⟨m2, ms2, heq, hnb⟩
              · exact absurd h3 (by simp)
              · have hcnb : pyStripL c ≠ [] := by
                  injection heq with he1 _
                  rw [he1]; exact hnb
                simp [hasTripleBlank, htail, hcnb]
            · simp [hasTripleBlank, htail, hbb]
      · simp only [blankCollapse, if_pos hb, if_neg h2]
        exact ih (k + 1)
    · simp only [blankCollapse, if_neg hb]
      cases hX : blankCollapse as 0 with
      | nil => rfl
      | cons b X2 =>
        cases X2 with
        | nil => rfl
        | cons c X3 =>
          have htail : hasTripleBlank (b :: c :: X3) = false := by
            have h5 := ih 0
            rw [hX] at h5
            exact h5
          simp [hasTripleBlank, htail, hb]

/-- Dropping the head cannot create a triple of blanks. -/
theorem triple_tail (a : List Char) (l : List (List Char))
    (h : hasTripleBlank (a :: l) = false) : hasTripleBlank l = false := by
  cases l with
  | nil => rfl
  | cons b l2 =>
    cases l2 with
    | nil => rfl
    | cons c l3 =>
      rw [hasTripleBlank, Bool.or_eq_false_iff] at h
      exact h.2

/-- A triple of blanks survives appending on the right. -/
theorem triple_of_append_left (l t : List (List Char))
    (h : hasTripleBlank l = true) : hasTripleBlank (l ++ t) = true := by
  induction l with
  | nil => exact absurd h (by simp [hasTripleBlank])
  | cons a l2 ih =>
    cases l2 with
    | nil => exact absurd h (by simp [hasTripleBlank])
    | cons b l3 =>
      cases l3 with
      | nil => exact absurd h (by simp [hasTripleBlank])
      | cons c l4 =>
        rw [hasTripleBlank, Bool.or_eq_true] at h
        simp only [List.cons_append]
        rw [hasTripleBlank, Bool.or_eq_true]
        rcases h with h | h
        · exact Or.inl h
        · have h2 := ih h
          simp only [List.cons_append] at h2
          exact Or.inr h2

/-- No triple of blanks in a list means none in any of its suffixes. -/
theorem triple_false_of_suffix (t l : List (List Char))
    (h : ∃ u, l = u ++ t) (hl : hasTripleBlank l = false) :
    hasTripleBlank t = false := by
  obtain ⟨u, rfl⟩ := h
  induction u with
  | nil => exact hl
  | cons a u2 ih => exact ih (triple_tail a (u2 ++ t) hl)

/-- No triple of blanks in a list means none in any of its initial
segments. -/
theorem triple_false_of_initial (t l : List (List Char))
    (h : ∃ u, l = t ++ u) (hl : hasTripleBlank l = false) :
    hasTripleBlank t = false := by
  obtain ⟨u, rfl⟩ := h
  cases ht : hasTripleBlank t with
  | false => rfl
  | true => rw [triple_of_append_left t u ht] at hl; exact absurd hl (by simp)

/-- The front trim removes a (blank) initial segment. -/
theorem trimFront_decomp (ls : List (List Char)) :
    ∃ u, ls = u ++ trimFront ls :=
  ⟨ls.takeWhile (fun l => decide (pyStripL l = [])),
    (List.takeWhile_append_dropWhile _ ls).symm⟩

/-- The back trim keeps an initial segment. -/
theorem trimBack_decomp (ls : List (List Char)) :
    ∃ u, ls = trimBack ls ++ u := by
  refine ⟨(ls.reverse.takeWhile (fun l => decide (pyStripL l = []))).reverse, ?_⟩
  unfold trimBack
  rw [← List.reverse_append, List.takeWhile_append_dropWhile,
    List.reverse_reverse]

/-- The head surviving a `dropWhile` falsifies the predicate. -/
theorem dropWhile_head_false {α : Type} (p : α → Bool) (l : List α)
    (x : α) (xs : List α) (h : l.dropWhile p = x :: xs) : p x = false := by
  induction l with
  | nil => exact absurd h (by simp)
  | cons a as ih =>
    rw [List.dropWhile_cons] at h
    by_cases hp : p a = true
    · rw [if_pos hp] at h
      exact ih h
    · rw [if_neg hp] at h
      injection h with h1 _
      rw [← h1]
      exact Bool.not_eq_true _ ▸ (by simpa using hp)

/-- A nonempty front-trim output starts with a nonblank line. -/
theorem trimFront_head (ls : List (List Char)) (m : List Char)
    (ms : List (List Char)) (h : trimFront ls = m :: ms) :
    pyStripL m ≠ [] := by
  have h2 := dropWhile_head_false (fun l => decide (pyStripL l = [])) ls m ms h
  simpa using h2

/-- A nonempty back-trim output ends with a nonblank line. -/
theorem trimBack_last (ls : List (List Char)) (m : List Char)
    (ms : List (List Char)) (h : trimBack ls = m :: ms) :
    pyStripL ((m :: ms).getLastD []) ≠ [] := by
  unfold trimBack at h
  cases hX : ls.reverse.dropWhile (fun l => decide (pyStripL l = [])) with
  | nil => rw [hX] at h; exact absurd h.symm (by simp)
  | cons x xs =>
    have hx := dropWhile_head_false _ ls.reverse x xs hX
    rw [hX] at h
    have hlast : ((x :: xs).reverse).getLastD [] = x := by
      rw [List.reverse_cons, List.getLastD_concat]
    rw [← h, hlast]
    simpa using hx

/-- Any list extends its own `dropLast`. -/
theorem exists_append_dropLast {α : Type} :
    ∀ (l : List α), ∃ u, l = l.dropLast ++ u
  | [] => ⟨[], rfl⟩
  | [a] => ⟨[a], rfl⟩
  | a :: b :: r => by
    obtain ⟨u, hu⟩ := exists_append_dropLast (b :: r)
    exact ⟨u, by rw [List.dropLast_cons₂, List.cons_append, ← hu]⟩

/-- When no line matches the footer pattern, the footer scan is the
identity. -/
theorem footerScan_id (result : List (List Char))
    (h : ∀ l ∈ result, footerB l = false) :
    footerScan result = result := by
  unfold footerScan
  have hnone : (List.range result.length).find?
      (fun i => decide (result.length - min 15 result.length ≤ i) &&
        footerB (result.getD i [])) = none := by
    rw [List.find?_eq_none]
    intro i hi
    rw [List.mem_range] at hi
    have hmem : result.getD i [] ∈ result := by
      rw [List.getD_eq_getElem result [] hi]
      exact List.getElem_mem hi
    intro hx
    rw [Bool.and_eq_true] at hx
    rw [h _ hmem] at hx
    exact absurd hx.2 (by simp)
  rw [hnone]

/-- The footer scan keeps an initial segment of its input. -/
theorem footerScan_decomp (result : List (List Char)) :
    ∃ u, result = footerScan result ++ u := by
  unfold footerScan
  cases hf : (List.range result.length).find?
      (fun i => decide (result.length - min 15 result.length ≤ i) &&
        footerB (result.getD i [])) with
  | none => exact ⟨[], by simp⟩
  | some i =>
    dsimp only
    by_cases hc : pyStripL ((result.take i).getLastD []) = "---".data
    · rw [if_pos hc]
      obtain ⟨u1, hu1⟩ := exists_append_dropLast (result.take i)
      refine ⟨u1 ++ result.drop i, ?_⟩
      rw [← List.append_assoc, ← hu1, List.take_append_drop]
    · rw [if_neg hc]
      exact ⟨result.drop i, (List.take_append_drop i result).symm⟩

/-- C7 (amended): four consecutive blank lines collapse to exactly two;
the post-pass output never contains three consecutive blank lines and
never begins with a blank line; and it does not end with a blank line
PROVIDED the footer scan finds no match — after footer truncation
(source lines 146-158, which run after the edge trimming of lines
141-144) trailing blank lines can remain, as `c7_counterexample` shows. -/
theorem c7_amended_blank_line_normalization :
    (process_markdown_content "a\n\n\n\n\nb" = "a\n\n\nb") ∧
    ∀ outp : List (List Char),
      hasTripleBlank (postPass outp) = false ∧
      (∀ m ms, postPass outp = m :: ms → pyStripL m ≠ []) ∧
      ((∀ l ∈ trimBack (trimFront (blankCollapse outp 0)), footerB l = false) →
        postPass outp = [] ∨ pyStripL ((postPass outp).getLastD []) ≠ []) := by
  refine ⟨by decide, ?_⟩
  intro outp
  refine ⟨?_, ?_, ?_⟩
  · have h1 := bc_no_triple outp 0
    have h2 := triple_false_of_suffix _ _
      (trimFront_decomp (blankCollapse outp 0)) h1
    have h3 := triple_false_of_initial _ _
      (trimBack_decomp (trimFront (blankCollapse outp 0))) h2
    exact triple_false_of_initial _ _
      (footerScan_decomp (trimBack (trimFront (blankCollapse outp 0)))) h3
  · intro m ms hP
    obtain ⟨u, hu⟩ :=
      footerScan_decomp (trimBack (trimFront (blankCollapse outp 0)))
    have hP2 : footerScan (trimBack (trimFront (blankCollapse outp 0))) =
        m :: ms := hP
    rw [hP2] at hu
    obtain ⟨u2, hu2⟩ := trimBack_decomp (trimFront (blankCollapse outp 0))
    rw [hu] at hu2
    apply trimFront_head (blankCollapse outp 0) m (ms ++ u ++ u2)
    rw [hu2]
    simp
  · intro hfoot
    have hs : postPass outp = trimBack (trimFront (blankCollapse outp 0)) :=
      footerScan_id _ hfoot
    rw [hs]
    cases hTc : trimBack (trimFront (blankCollapse outp 0)) with
    | nil => left; rfl
    | cons m ms =>
      right
      exact trimBack_last _ m ms hTc

/-- C7 amended witness: the conditional trailing-blank clause applied to
the one-line document `content`, which contains no footer line. -/
theorem c7_amended_witness :
    (∀ l ∈ trimBack (trimFront (blankCollapse ["content".data] 0)),
      footerB l = false) ∧
    (postPass ["content".data] = [] ∨
      pyStripL ((postPass ["content".data]).getLastD []) ≠ []) :=
  ⟨by decide,
    (c7_amended_blank_line_normalization.2 ["content".data]).2.2 (by decide)⟩

/-- A successful `isPrefixOf` test decomposes the list. -/
theorem isPrefixOf_append (p : List Char) :
    ∀ (l : List Char), p.isPrefixOf l = true → ∃ t, l = p ++ t := by
  induction p with
  | nil => intro l _; exact ⟨l, rfl⟩
  | cons a ps ih =>
    intro l h
    cases l with
    | nil => exact absurd h (by simp [List.isPrefixOf])
    | cons b bs =>
      rw [List.isPrefixOf, Bool.and_eq_true, beq_iff_eq] at h
      obtain ⟨t, ht⟩ := ih bs h.2
      exact ⟨t, by rw [h.1, ht]; rfl⟩

/-- Every character of an occurring pattern occurs in the line. -/
theorem containsSub_mem (pat : List Char) :
    ∀ (l : List Char), containsSub pat l = true → ∀ c ∈ pat, c ∈ l := by
  intro l
  induction l with
  | nil =>
    intro h c hc
    cases pat with
    | nil => exact absurd hc (by simp)
    | cons p ps => exact absurd h (by simp [containsSub])
  | cons x xs ih =>
    intro h c hc
    rw [containsSub, Bool.or_eq_true] at h
    rcases h with h | h
    · obtain ⟨t, ht⟩ := isPrefixOf_append pat (x :: xs) h
      rw [ht]
      exact List.mem_append_left t hc
    · exact List.mem_cons_of_mem x (ih h c hc)

/-- A singleton pattern is absent from lines missing the character. -/
theorem containsSub_singleton_false (c : Char) (l : List Char)
    (h : c ∉ l) : containsSub [c] l = false := by
  cases hcs : containsSub [c] l with
  | false => rfl
  | true => exact absurd ((containsSub_singleton c l).mp hcs) h

/-- A multicharacter pattern is absent when one of its characters is. -/
theorem containsSub_false_of_not_mem (pat l : List Char) (c : Char)
    (hc : c ∈ pat) (h : c ∉ l) : containsSub pat l = false := by
  cases hcs : containsSub pat l with
  | false => rfl
  | true => exact absurd (containsSub_mem pat l hcs c hc) h

/-- A line without `[` is never a badge-image line. -/
theorem badgeB_false_of_no_bracket (l : List Char) (h : '[' ∉ l) :
    badgeB l = false := by
  unfold badgeB
  cases hp : ("![".data).isPrefixOf (pyStripL l) with
  | false => rfl
  | true =>
    obtain ⟨t, ht⟩ := isPrefixOf_append _ _ hp
    have hm : '[' ∈ pyStripL l := by rw [ht]; simp
    exact absurd (mem_of_mem_pyStripL _ _ hm) h

/-- A line without `#` never matches the TOC-start regex. -/
theorem tocStartB_false_of_no_hash (l : List Char) (h : '#' ∉ l) :
    tocStartB l = false := by
  unfold tocStartB
  split
  case h_1 r => exact absurd (List.mem_cons_self _ _) h
  case h_2 => rfl

/-- The heading rules do not touch a line without `#`. -/
theorem headingFix_id_of_no_hash (l : List Char) (h : '#' ∉ l) :
    headingFix l = l := by
  unfold headingFix
  split
  case h_1 r heq =>
    have hm : '#' ∈ l.dropWhile pySpace := by rw [heq]; simp
    exact absurd ((l.dropWhile_sublist pySpace).mem hm) h
  case h_2 => rfl

/-- Characters of the emoji-stripped line come from the line. -/
theorem mem_stripEmoji (c : Char) (l : List Char)
    (h : c ∈ stripEmoji l) : c ∈ l :=
  List.mem_of_mem_filter h

/-- Characters of the whitespace-collapsed line come from the line, or
are the plain space the collapse inserts. -/
theorem mem_collapseWs :
    ∀ (l : List Char) (c : Char), c ∈ collapseWs l → c ∈ l ∨ c = ' ' := by
  intro l
  induction l with
  | nil => intro c h; exact absurd h (by simp [collapseWs])
  | cons a as ih =>
    intro c h
    cases as with
    | nil =>
      rw [collapseWs] at h
      by_cases ha : (a = ' ' || a = '\t') = true
      · rw [if_pos ha] at h
        right
        simpa using h
      · rw [if_neg ha] at h
        left
        simpa using h
    | cons b bs =>
      rw [collapseWs] at h
      by_cases ha : (a = ' ' || a = '\t') = true
      · rw [if_pos ha] at h
        by_cases hb : (b = ' ' || b = '\t') = true
        · rw [if_pos hb] at h
          rcases ih c h with h2 | h2
          · exact Or.inl (List.mem_cons_of_mem a h2)
          · exact Or.inr h2
        · rw [if_neg hb] at h
          rcases List.mem_cons.mp h with h2 | h2
          · exact Or.inr h2
          · rcases ih c h2 with h3 | h3
            · exact Or.inl (List.mem_cons_of_mem a h3)
            · exact Or.inr h3
      · rw [if_neg ha] at h
        rcases List.mem_cons.mp h with h2 | h2
        · exact Or.inl (h2 ▸ List.mem_cons_self a (b :: bs))
        · rcases ih c h2 with h3 | h3
          · exact Or.inl (List.mem_cons_of_mem a h3)
          · exact Or.inr h3

/-- The per-line transformation that survives on markup-free prose:
emoji removal (source lines 91-93) followed by whitespace collapapse
(line 124). -/
def procLine (l : List Char) : List Char :=
  collapseWs (stripEmoji l)

/-- Characters that trigger none of the structural or substitution rules:
anything except backquote, `#`, `*`, `_`, `[`, `|`, `<`, `>`. -/
def proseChar (c : Char) : Bool :=
  !(c = backquote || c = '#' || c = '*' || c = '_' || c = '[' ||
    c = '|' || c = '<' || c = '>')

/-- A prose line for the amended idempotence claim: only `proseChar`
characters, not stripping to the front-matter delimiter (neither raw nor
after processing), and not processing to an attribution-footer line. -/
def proseLine (l : List Char) : Bool :=
  l.all proseChar &&
  decide (pyStripL l ≠ "---".data) &&
  decide (pyStripL (procLine l) ≠ "---".data) &&
  !footerB (procLine l)

/-- A character with a false `proseChar` test is absent from a prose
line. -/
theorem not_mem_of_all_prose (l : List Char) (c : Char)
    (hall : l.all proseChar = true) (hc : proseChar c = false) : c ∉ l := by
  intro hm
  have h2 := List.all_eq_true.mp hall c hm
  rw [hc] at h2
  exact absurd h2 (by simp)

/-- On a line of `proseChar` characters the fence-and-onward stage emits
exactly the processed line. -/
theorem stepFence_prose (s : RwState) (l : List Char)
    (hic : s.inCode = false) (hall : l.all proseChar = true) :
    stepFence s l = { s with output := s.output ++ [procLine l] } := by
  have hbq : backquote ∉ l := not_mem_of_all_prose l backquote hall (by decide)
  have hlb : '[' ∉ l := not_mem_of_all_prose l '[' hall (by decide)
  have hstar : '*' ∉ l := not_mem_of_all_prose l '*' hall (by decide)
  have hund : '_' ∉ l := not_mem_of_all_prose l '_' hall (by decide)
  have hhash : '#' ∉ l := not_mem_of_all_prose l '#' hall (by decide)
  have hpipe : '|' ∉ l := not_mem_of_all_prose l '|' hall (by decide)
  have hstar2 : '*' ∉ stripEmoji l := fun hm => hstar (mem_stripEmoji _ _ hm)
  have hund2 : '_' ∉ stripEmoji l := fun hm => hund (mem_stripEmoji _ _ hm)
  have hhash2 : '#' ∉ stripEmoji l := fun hm => hhash (mem_stripEmoji _ _ hm)
  have hpipe2 : '|' ∉ stripEmoji l := fun hm => hpipe (mem_stripEmoji _ _ hm)
  have hfence := fence_false_of_no_backquote l hbq
  have hbadge := badgeB_false_of_no_bracket l hlb
  have h1 : subImage l = l := subImage_id l hlb
  have h2 : subLink l = l := subLink_id l hlb
  have h4 : subDelim '*' 3 (stripEmoji l) = stripEmoji l :=
    subDelim_id '*' 2 _ hstar2
  have h5 : subDelim '*' 2 (stripEmoji l) = stripEmoji l :=
    subDelim_id '*' 1 _ hstar2
  have h6 : subDelim '*' 1 (stripEmoji l) = stripEmoji l :=
    subDelim_id '*' 0 _ hstar2
  have h7 : subDelim '_' 3 (stripEmoji l) = stripEmoji l :=
    subDelim_id '_' 2 _ hund2
  have h8 : subDelim '_' 2 (stripEmoji l) = stripEmoji l :=
    subDelim_id '_' 1 _ hund2
  have h9 : subDelim '_' 1 (stripEmoji l) = stripEmoji l :=
    subDelim_id '_' 0 _ hund2
  have hha : headingFix (stripEmoji l) = stripEmoji l :=
    headingFix_id_of_no_hash _ hhash2
  have hpp : containsSub "|".data (stripEmoji l) = false := by
    have he : ("|".data) = ['|'] := by decide
    rw [he]
    exact containsSub_singleton_false '|' _ hpipe2
  unfold stepFence
  rw [if_neg hfence]
  simp only [hic, h1, h2, h4, h5, h6, h7, h8, h9, hha, hbadge, hpp,
    Bool.false_eq_true, if_false, Bool.false_and, Bool.and_false, ite_false]
  rfl

/-- On a prose line the whole loop body appends exactly the processed
line, leaving the mode flags clear. -/
theorem step_prose (s : RwState) (l : List Char)
    (hic : s.inCode = false) (hsy : s.skipYaml = false)
    (hst : s.skipToc = false) (h : proseLine l = true) :
    step s l = { s with atStart := false,
                        output := s.output ++ [procLine l] } := by
  unfold proseLine at h
  simp only [Bool.and_eq_true, decide_eq_true_eq, Bool.not_eq_true'] at h
  obtain ⟨⟨⟨hall, hy1⟩, -⟩, -⟩ := h
  have hlt : containsSub "<!--".data l = false :=
    containsSub_false_of_not_mem _ l '<' (by decide)
      (not_mem_of_all_prose l '<' hall (by decide))
  have hgt : containsSub "-->".data l = false :=
    containsSub_false_of_not_mem _ l '>' (by decide)
      (not_mem_of_all_prose l '>' hall (by decide))
  have htoc : tocStartB l = false :=
    tocStartB_false_of_no_hash l (not_mem_of_all_prose l '#' hall (by decide))
  have hyaml : decide (pyStripL l = "---".data) = false := decide_eq_false hy1
  obtain ⟨a, ic, cb, cl, sy, stc, out⟩ := s
  replace hic : ic = false := hic
  replace hsy : sy = false := hsy
  replace hst : stc = false := hst
  subst hic hsy hst
  unfold step
  simp only [hyaml, Bool.and_false, htoc, Bool.false_and, Bool.false_eq_true,
    if_false, ite_false]
  unfold stepComment
  simp only [hlt, hgt, Bool.false_and, Bool.false_eq_true, if_false, ite_false]
  exact stepFence_prose _ l rfl hall

/-- Normal form for the whitespace collapse: no tab anywhere, no two
adjacent space characters. -/
def wsNormB : List Char → Bool
  | [] => true
  | [c] => !(c = '\t')
  | c :: d :: r =>
    !(c = '\t') && !((c = ' ' || c = '\t') && (d = ' ' || d = '\t')) &&
    wsNormB (d :: r)

/-- The collapse output starts with the head of its input when that head
is not a space or tab. -/
theorem collapseWs_head (d : Char) (r : List Char)
    (hd : (d = ' ' || d = '\t') = false) :
    ∃ X, collapseWs (d :: r) = d :: X := by
  cases r with
  | nil => exact ⟨[], by rw [collapseWs, if_neg (by simp [hd])]⟩
  | cons e r2 => exact ⟨collapseWs (e :: r2), by rw [collapseWs, if_neg (by simp [hd])]⟩

/-- The whitespace collapse always produces a normal-form line. -/
theorem wsNorm_collapseWs : ∀ (l : List Char), wsNormB (collapseWs l) = true := by
  intro l
  induction l with
  | nil => rfl
  | cons a as ih =>
    cases as with
    | nil =>
      rw [collapseWs]
      by_cases ha : (a = ' ' || a = '\t') = true
      · rw [if_pos ha]; rfl
      · rw [if_neg ha]
        simp only [wsNormB, Bool.not_eq_true']
        simp only [Bool.or_eq_true, decide_eq_true_eq] at ha
        simp [decide_eq_false (fun hc => ha (Or.inr hc))]
    | cons b bs =>
      rw [collapseWs]
      by_cases ha : (a = ' ' || a = '\t') = true
      · by_cases hb : (b = ' ' || b = '\t') = true
        · rw [if_pos ha, if_pos hb]
          exact ih
        · rw [if_pos ha, if_neg hb]
          obtain ⟨X, hX⟩ := collapseWs_head b bs (by simpa using hb)
          rw [hX]
          rw [hX] at ih
          simp only [wsNormB, Bool.and_eq_true, Bool.not_eq_true']
          refine ⟨⟨by decide, ?_⟩, ih⟩
          simp only [Bool.and_eq_false_iff]
          right
          simpa using hb
      · rw [if_neg ha]
        have hat : ¬ a = '\t' := by
          simp only [Bool.or_eq_true, decide_eq_true_eq] at ha
          exact fun hc => ha (Or.inr hc)
        cases hX : collapseWs (b :: bs) with
        | nil => simp [wsNormB, hat]
        | cons x X2 =>
          rw [hX] at ih
          simp only [wsNormB, Bool.and_eq_true, Bool.not_eq_true']
          refine ⟨⟨by simp [hat], ?_⟩, ih⟩
          simp only [Bool.and_eq_false_iff]
          left
          simpa using ha

/-- The collapse fixes lines already in normal form. -/
theorem collapseWs_id_of_norm : ∀ (l : List Char),
    wsNormB l = true → collapseWs l = l := by
  intro l
  induction l with
  | nil => intro _; rfl
  | cons a as ih =>
    intro h
    cases as with
    | nil =>
      rw [collapseWs]
      by_cases ha : (a = ' ' || a = '\t') = true
      · rw [if_pos ha]
        simp only [wsNormB, Bool.not_eq_true', decide_eq_false_iff_not] at h
        simp only [Bool.or_eq_true, decide_eq_true_eq] at ha
        rcases ha with ha | ha
        · rw [ha]
        · exact absurd ha h
      · rw [if_neg ha]
    | cons b bs =>
      simp only [wsNormB, Bool.and_eq_true, Bool.not_eq_true',
        decide_eq_false_iff_not, Bool.and_eq_false_iff] at h
      obtain ⟨⟨hat, hadj⟩, htail⟩ := h
      rw [collapseWs]
      by_cases ha : (a = ' ' || a = '\t') = true
      · have hb : (b = ' ' || b = '\t') = false := by
          rcases hadj with h2 | h2
          · rw [h2] at ha; exact absurd ha (by simp)
          · exact h2
        rw [if_pos ha, if_neg (by simp [hb])]
        rw [ih htail]
        simp only [Bool.or_eq_true, decide_eq_true_eq] at ha
        rcases ha with ha | ha
        · rw [ha]
        · exact absurd ha hat
      · rw [if_neg ha, ih htail]

/-- The whitespace collapse is idempotent. -/
theorem collapseWs_idem (l : List Char) :
    collapseWs (collapseWs l) = collapseWs l :=
  collapseWs_id_of_norm _ (wsNorm_collapseWs l)

/-- Emoji removal leaves no emoji. -/
theorem stripEmoji_no_emoji (l : List Char) (c : Char)
    (h : c ∈ stripEmoji l) : emojiChar c = false := by
  have h2 := List.of_mem_filter h
  simpa using h2

/-- The processed line is a fixed point of the processing. -/
theorem procLine_idem (l : List Char) :
    procLine (procLine l) = procLine l := by
  unfold procLine
  have h1 : stripEmoji (collapseWs (stripEmoji l)) = collapseWs (stripEmoji l) := by
    apply stripEmoji_id
    intro c hc
    rcases mem_collapseWs _ c hc with h2 | h2
    · exact stripEmoji_no_emoji l c h2
    · rw [h2]; decide
  rw [h1, collapseWs_idem]

/-- Characters of the processed line come from the line or are spaces. -/
theorem mem_procLine (c : Char) (l : List Char) (h : c ∈ procLine l) :
    c ∈ l ∨ c = ' ' := by
  rcases mem_collapseWs _ c h with h2 | h2
  · exact Or.inl (mem_stripEmoji _ _ h2)
  · exact Or.inr h2

/-- Processing preserves prose-line membership. -/
theorem proseLine_procLine (l : List Char) (h : proseLine l = true) :
    proseLine (procLine l) = true := by
  unfold proseLine at h ⊢
  simp only [Bool.and_eq_true, decide_eq_true_eq, Bool.not_eq_true'] at h ⊢
  obtain ⟨⟨⟨hall, -⟩, hy2⟩, hff⟩ := h
  refine ⟨⟨⟨?_, hy2⟩, ?_⟩, ?_⟩
  · rw [List.all_eq_true]
    intro c hc
    rcases mem_procLine c l hc with h2 | h2
    · exact List.all_eq_true.mp hall c h2
    · rw [h2]; decide
  · rw [procLine_idem]
    exact hy2
  · rw [procLine_idem]
    exact hff

/-- Processing a sequence of prose lines emits exactly their processed
forms, leaving the mode flags clear. -/
theorem foldl_prose : ∀ (ls : List (List Char)) (s : RwState),
    s.inCode = false → s.skipYaml = false → s.skipToc = false →
    (∀ l ∈ ls, proseLine l = true) →
    (ls.foldl step s).output = s.output ++ ls.map procLine ∧
    (ls.foldl step s).inCode = false ∧
    (ls.foldl step s).skipYaml = false ∧
    (ls.foldl step s).skipToc = false := by
  intro ls
  induction ls with
  | nil => intro s h1 h2 h3 _; exact ⟨by simp, h1, h2, h3⟩
  | cons l ls2 ih =>
    intro s h1 h2 h3 hall
    obtain ⟨a, ic, cb, cl, sy, stc, out⟩ := s
    replace h1 : ic = false := h1
    replace h2 : sy = false := h2
    replace h3 : stc = false := h3
    subst h1 h2 h3
    rw [List.foldl_cons,
      step_prose _ l rfl rfl rfl (hall l (List.mem_cons_self l ls2))]
    have hrec := ih ⟨false, false, cb, cl, false, false, out ++ [procLine l]⟩
      rfl rfl rfl (fun x hx => hall x (List.mem_cons_of_mem l hx))
    exact ⟨hrec.1.trans (by simp), hrec.2.1, hrec.2.2.1, hrec.2.2.2⟩

/-- A newline-free character list splits into the single line it is. -/
theorem splitNl_no_nl : ∀ (l : List Char), '\n' ∉ l → splitNl l = [l] := by
  intro l
  induction l with
  | nil => intro _; rfl
  | cons c cs ih =>
    intro h
    have hc : ¬ (c = '\n') := fun hc => h (hc ▸ List.mem_cons_self c cs)
    have h2 : '\n' ∉ cs := fun hm => h (List.mem_cons_of_mem c hm)
    rw [splitNl, ih h2]
    simp [hc]

/-- `splitNl` never returns the empty list of lines. -/
theorem splitNl_ne_nil : ∀ (l : List Char), splitNl l ≠ [] := by
  intro l
  cases l with
  | nil => simp [splitNl]
  | cons c cs =>
    rw [splitNl]
    cases splitNl cs with
    | nil => simp
    | cons g gs =>
      by_cases hc : c = '\n'
      · simp [hc]
      · simp [hc]

/-- Splitting after a newline-free first line peels it off. -/
theorem splitNl_append_nl : ∀ (x R : List Char), '\n' ∉ x →
    splitNl (x ++ '\n' :: R) = x :: splitNl R := by
  intro x
  induction x with
  | nil =>
    intro R _
    rw [List.nil_append, splitNl]
    cases hR : splitNl R with
    | nil => exact absurd hR (splitNl_ne_nil R)
    | cons g gs => simp
  | cons c cs ih =>
    intro R h
    have hc : ¬ (c = '\n') := fun hc => h (hc ▸ List.mem_cons_self c cs)
    have h2 : '\n' ∉ cs := fun hm => h (List.mem_cons_of_mem c hm)
    rw [List.cons_append, splitNl, ih R h2]
    simp [hc]

/-- Splitting inverts joining on nonempty, newline-free line lists. -/
theorem splitNl_joinNl : ∀ (xs : List (List Char)), xs ≠ [] →
    (∀ x ∈ xs, '\n' ∉ x) → splitNl (joinNl xs) = xs := by
  intro xs
  induction xs with
  | nil => intro h _; exact absurd rfl h
  | cons x ys ih =>
    intro _ hfree
    cases ys with
    | nil =>
      rw [joinNl]
      exact splitNl_no_nl x (hfree x (List.mem_cons_self x []))
    | cons y ys2 =>
      rw [joinNl, splitNl_append_nl x _ (hfree x (List.mem_cons_self x _))]
      · rw [ih (List.cons_ne_nil y ys2)
          (fun z hz => hfree z (List.mem_cons_of_mem x hz))]
      · exact fun h => List.noConfusion h

/-- Lines produced by `splitNl` contain no newline. -/
theorem mem_splitNl_no_nl : ∀ (l : List Char) (x : List Char),
    x ∈ splitNl l → '\n' ∉ x := by
  intro l
  induction l with
  | nil =>
    intro x hx
    have : x = [] := by simpa [splitNl] using hx
    simp [this]
  | cons c cs ih =>
    intro x hx
    rw [splitNl] at hx
    cases hsp : splitNl cs with
    | nil => exact absurd hsp (splitNl_ne_nil cs)
    | cons g gs =>
      rw [hsp] at hx
      dsimp only at hx
      by_cases hc : c = '\n'
      · rw [if_pos hc] at hx
        rcases List.mem_cons.mp hx with h2 | h2
        · simp [h2]
        · exact ih x (hsp ▸ h2)
      · rw [if_neg hc] at hx
        rcases List.mem_cons.mp hx with h2 | h2
        · intro hm
          rw [h2] at hm
          rcases List.mem_cons.mp hm with h3 | h3
          · exact hc h3.symm
          · exact ih g (hsp ▸ List.mem_cons_self g gs) h3
        · exact ih x (hsp ▸ List.mem_cons_of_mem g h2)

/-- Lines kept by the blank-line collapse come from its input. -/
theorem mem_blankCollapse : ∀ (ls : List (List Char)) (k : Nat) (x : List Char),
    x ∈ blankCollapse ls k → x ∈ ls := by
  intro ls
  induction ls with
  | nil => intro k x hx; exact absurd hx (by simp [blankCollapse])
  | cons a as ih =>
    intro k x hx
    rw [blankCollapse] at hx
    by_cases hb : pyStripL a = []
    · rw [if_pos hb] at hx
      by_cases h2 : k + 1 ≤ 2
      · rw [if_pos h2] at hx
        rcases List.mem_cons.mp hx with h3 | h3
        · exact h3 ▸ List.mem_cons_self a as
        · exact List.mem_cons_of_mem a (ih (k + 1) x h3)
      · rw [if_neg h2] at hx
        exact List.mem_cons_of_mem a (ih (k + 1) x hx)
    · rw [if_neg hb] at hx
      rcases List.mem_cons.mp hx with h3 | h3
      · exact h3 ▸ List.mem_cons_self a as
      · exact List.mem_cons_of_mem a (ih 0 x h3)

/-- Lines kept by the post-pass come from the emitted lines. -/
theorem mem_postPass (outp : List (List Char)) (x : List Char)
    (hx : x ∈ postPass outp) : x ∈ outp := by
  obtain ⟨u, hu⟩ := footerScan_decomp (trimBack (trimFront (blankCollapse outp 0)))
  have h1 : x ∈ trimBack (trimFront (blankCollapse outp 0)) := by
    rw [hu]
    exact List.mem_append_left u hx
  obtain ⟨u2, hu2⟩ := trimBack_decomp (trimFront (blankCollapse outp 0))
  have h2 : x ∈ trimFront (blankCollapse outp 0) := by
    rw [hu2]
    exact List.mem_append_left u2 h1
  obtain ⟨u3, hu3⟩ := trimFront_decomp (blankCollapse outp 0)
  have h3 : x ∈ blankCollapse outp 0 := by
    rw [hu3]
    exact List.mem_append_right u3 h2
  exact mem_blankCollapse outp 0 x h3

/-- On a list without three consecutive blanks, the collapse is the
identity (stated with the auxiliary counters needed for the induction). -/
theorem bc_id : ∀ (ls : List (List Char)), hasTripleBlank ls = false →
    (blankCollapse ls 0 = ls) ∧
    ((∀ m m2 ms, ls = m :: m2 :: ms → ¬(pyStripL m = [] ∧ pyStripL m2 = [])) →
      blankCollapse ls 1 = ls) ∧
    ((∀ m ms, ls = m :: ms → pyStripL m ≠ []) → blankCollapse ls 2 = ls) := by
  intro ls
  induction ls with
  | nil => intro _; exact ⟨rfl, fun _ => rfl, fun _ => rfl⟩
  | cons a as ih =>
    intro hT
    have hTas : hasTripleBlank as = false := triple_tail a as hT
    have ihs := ih hTas
    refine ⟨?_, ?_, ?_⟩
    · by_cases hb : pyStripL a = []
      · rw [blankCollapse, if_pos hb, if_pos (by omega)]
        have h2 : blankCollapse as 1 = as := by
          apply ihs.2.1
          intro m m2 ms hms hblanks
          rw [hms] at hT
          rw [hasTripleBlank] at hT
          simp [hb, hblanks.1, hblanks.2] at hT
        rw [h2]
      · rw [blankCollapse, if_neg hb, ihs.1]
    · intro hc
      by_cases hb : pyStripL a = []
      · rw [blankCollapse, if_pos hb, if_pos (by omega)]
        have h2 : blankCollapse as 2 = as := by
          apply ihs.2.2
          intro m ms hms hm
          exact hc a m ms (by rw [hms]) ⟨hb, hm⟩
        rw [h2]
      · rw [blankCollapse, if_neg hb, ihs.1]
    · intro hc
      have hb : pyStripL a ≠ [] := hc a as rfl
      rw [blankCollapse, if_neg hb, ihs.1]

/-- The front trim fixes lists not starting with a blank line. -/
theorem trimFront_id (ls : List (List Char))
    (h : ∀ m ms, ls = m :: ms → pyStripL m ≠ []) : trimFront ls = ls := by
  cases ls with
  | nil => rfl
  | cons m ms =>
    unfold trimFront
    rw [List.dropWhile_cons]
    simp [h m ms rfl]

/-- The back trim fixes lists not ending with a blank line. -/
theorem trimBack_id (ls : List (List Char))
    (h : ls = [] ∨ pyStripL (ls.getLastD []) ≠ []) : trimBack ls = ls := by
  rcases h with h | h
  · rw [h]; rfl
  · cases hrev : ls.reverse with
    | nil =>
      rw [List.reverse_eq_nil_iff] at hrev
      rw [hrev]
      rfl
    | cons x xs =>
      have hx : x = ls.getLastD [] := by
        have h1 : ls.reverse.head? = some x := by rw [hrev]; rfl
        rw [List.head?_reverse] at h1
        rw [List.getLastD_eq_getLast?, h1]
        rfl
      have hxb : ¬ (pyStripL x = []) := by rw [hx]; exact h
      unfold trimBack
      rw [hrev, List.dropWhile_cons, if_neg (by simp [hxb]), ← hrev,
        List.reverse_reverse]

/-- Lines kept by the trimming stages come from their input. -/
theorem mem_trimmed (outp : List (List Char)) (x : List Char)
    (hx : x ∈ trimBack (trimFront (blankCollapse outp 0))) : x ∈ outp := by
  obtain ⟨u2, hu2⟩ := trimBack_decomp (trimFront (blankCollapse outp 0))
  have h2 : x ∈ trimFront (blankCollapse outp 0) := by
    rw [hu2]
    exact List.mem_append_left u2 hx
  obtain ⟨u3, hu3⟩ := trimFront_decomp (blankCollapse outp 0)
  have h3 : x ∈ blankCollapse outp 0 := by
    rw [hu3]
    exact List.mem_append_right u3 h2
  exact mem_blankCollapse outp 0 x h3

/-- Mapping a pointwise-fixed function is the identity. -/
theorem map_procLine_fix : ∀ (Y : List (List Char)),
    (∀ y ∈ Y, procLine y = y) → Y.map procLine = Y := by
  intro Y
  induction Y with
  | nil => intro _; rfl
  | cons y ys ih =>
    intro h
    rw [List.map_cons, h y (List.mem_cons_self y ys),
      ih (fun z hz => h z (List.mem_cons_of_mem y hz))]

/-- C4 (amended): the rewrite is idempotent on documents every line of
which is plain prose — no backquote, `#`, `*`, `_`, `[`, `|`, `<` or `>`
character, not reducing to the bare `---` delimiter (raw or processed),
and not processing to an attribution-footer line.  On such input each
pass only removes emoji and collapses space runs, which is idempotent;
on the claim's original, larger domain idempotence fails
(see `c4_counterexample`). -/
theorem c4_amended_idempotent_on_plain_prose :
    ∀ (content : String),
      (∀ l ∈ splitNl content.data, proseLine l = true) →
      process_markdown_content (process_markdown_content content) =
        process_markdown_content content := by
  intro content hall
  have hfold := foldl_prose (splitNl content.data) initState rfl rfl rfl hall
  have hpass1 : process_markdown_content content =
      String.mk (joinNl (postPass ((splitNl content.data).map procLine))) := by
    unfold process_markdown_content
    rw [hfold.1]
    rfl
  rw [hpass1]
  have hT_foot : ∀ l ∈ trimBack (trimFront
      (blankCollapse ((splitNl content.data).map procLine) 0)),
      footerB l = false := by
    intro l hl
    have h2 := mem_trimmed _ l hl
    obtain ⟨x, hx, hxy⟩ := List.mem_map.mp h2
    have hp := hall x hx
    unfold proseLine at hp
    simp only [Bool.and_eq_true, Bool.not_eq_true'] at hp
    rw [← hxy]
    exact hp.2
  have hY1 : ∀ y ∈ postPass ((splitNl content.data).map procLine),
      ∃ x, x ∈ splitNl content.data ∧ y = procLine x := by
    intro y hy
    have h2 := mem_postPass _ y hy
    obtain ⟨x, hx, hxy⟩ := List.mem_map.mp h2
    exact ⟨x, hx, hxy.symm⟩
  have hprose2 : ∀ y ∈ postPass ((splitNl content.data).map procLine),
      proseLine y = true := by
    intro y hy
    obtain ⟨x, hx, rfl⟩ := hY1 y hy
    exact proseLine_procLine x (hall x hx)
  have hfix : ∀ y ∈ postPass ((splitNl content.data).map procLine),
      procLine y = y := by
    intro y hy
    obtain ⟨x, hx, rfl⟩ := hY1 y hy
    exact procLine_idem x
  have hfree : ∀ y ∈ postPass ((splitNl content.data).map procLine),
      '\n' ∉ y := by
    intro y hy
    obtain ⟨x, hx, rfl⟩ := hY1 y hy
    intro hm
    rcases mem_procLine '\n' x hm with h2 | h2
    · exact mem_splitNl_no_nl _ x hx h2
    · exact absurd h2 (by decide)
  have hY_foot : ∀ y ∈ postPass ((splitNl content.data).map procLine),
      footerB y = false := by
    intro y hy
    have hp := hprose2 y hy
    have hx := hfix y hy
    unfold proseLine at hp
    simp only [Bool.and_eq_true, Bool.not_eq_true'] at hp
    rw [← hx]
    exact hp.2
  have hTY : hasTripleBlank (postPass ((splitNl content.data).map procLine)) =
      false := by
    have h1 := bc_no_triple ((splitNl content.data).map procLine) 0
    have h2 := triple_false_of_suffix _ _ (trimFront_decomp _) h1
    have h3 := triple_false_of_initial _ _ (trimBack_decomp _) h2
    exact triple_false_of_initial _ _ (footerScan_decomp _) h3
  have hheadY : ∀ m ms, postPass ((splitNl content.data).map procLine) =
      m :: ms → pyStripL m ≠ [] := by
    intro m ms hP
    obtain ⟨u, hu⟩ := footerScan_decomp (trimBack (trimFront
      (blankCollapse ((splitNl content.data).map procLine) 0)))
    have hP2 : footerScan (trimBack (trimFront
        (blankCollapse ((splitNl content.data).map procLine) 0))) =
        m :: ms := hP
    rw [hP2] at hu
    obtain ⟨u2, hu2⟩ := trimBack_decomp (trimFront
      (blankCollapse ((splitNl content.data).map procLine) 0))
    rw [hu] at hu2
    apply trimFront_head (blankCollapse ((splitNl content.data).map procLine) 0)
      m (ms ++ u ++ u2)
    rw [hu2]
    simp
  have hlastY : postPass ((splitNl content.data).map procLine) = [] ∨
      pyStripL ((postPass ((splitNl content.data).map procLine)).getLastD [])
        ≠ [] := by
    have hs : postPass ((splitNl content.data).map procLine) =
        trimBack (trimFront
          (blankCollapse ((splitNl content.data).map procLine) 0)) :=
      footerScan_id _ hT_foot
    rw [hs]
    cases hTc : trimBack (trimFront
        (blankCollapse ((splitNl content.data).map procLine) 0)) with
    | nil => left; rfl
    | cons m ms =>
      right
      exact trimBack_last _ m ms hTc
  have hpost : postPass (postPass ((splitNl content.data).map procLine)) =
      postPass ((splitNl content.data).map procLine) := by
    show footerScan (trimBack (trimFront (blankCollapse _ 0))) = _
    rw [(bc_id _ hTY).1, trimFront_id _ hheadY, trimBack_id _ hlastY,
      footerScan_id _ hY_foot]
  by_cases hY : postPass ((splitNl content.data).map procLine) = []
  · rw [hY]
    decide
  · unfold process_markdown_content
    rw [show (String.mk (joinNl (postPass
        ((splitNl content.data).map procLine)))).data =
        joinNl (postPass ((splitNl content.data).map procLine)) from rfl]
    rw [splitNl_joinNl _ hY hfree]
    have hfold2 := foldl_prose (postPass ((splitNl content.data).map procLine))
      initState rfl rfl rfl hprose2
    rw [hfold2.1]
    have hYY : initState.output ++
        (postPass ((splitNl content.data).map procLine)).map procLine =
        postPass ((splitNl content.data).map procLine) := by
      rw [map_procLine_fix _ hfix]
      rfl
    rw [hYY, hpost]

/-- C4 amended witness: `c4_amended_idempotent_on_plain_prose` applied to
the plain-prose document `Hello  world`. -/
theorem c4_amended_witness :
    (∀ l ∈ splitNl ("Hello  world" : String).data, proseLine l = true) ∧
    process_markdown_content (process_markdown_content "Hello  world") =
      process_markdown_content "Hello  world" :=
  ⟨by decide, c4_amended_idempotent_on_plain_prose "Hello  world" (by decide)⟩

example : sepB "---|---".data = true := by decide
example : sepB "| |".data = false := by decide
example : sepB "|| ---".data = false := by decide
example : sepB "---||---".data = false := by decide
example : sepB "| --- | ".data = false := by decide
example : sepB " | --- | ".data = false := by decide
example : sepB "--- |".data = false := by decide
example : sepB "|:---:|----|".data = true := by decide
example : sepB "- -|---".data = false := by decide
example : sepB "|---|--x|".data = false := by decide
example : sepB "  |--|--|  ".data = true := by decide
example : sepB "|-|-|-|".data = true := by decide
example : sepB "|----|---".data = true := by decide
example : sepB "\t|---|---|".data = true := by decide
example : badgeB "![x](a)(badge.b)".data = true := by decide
example : badgeB "![](shields.io)".data = true := by decide
example : badgeB "![a]x](shields.io)".data = true := by decide
example : badgeB "![a](b) c (shields.io)".data = true := by decide
example : badgeB "x ![a](shields.io)".data = false := by decide
example : badgeB "![a](badge.)".data = true := by decide
example : stripTrailingHash "## # ##".data = "## #".data := by decide
example : stripTrailingHash "  ##  ".data = [] := by decide
example : stripTrailingHash "# x # y #".data = "# x # y".data := by decide
example : clampHeading "####X".data = "####X".data := by decide
example : clampHeading "  ######\ttab".data = "  ###\ttab".data := by decide
example : clampHeading "#### #X".data = "### #X".data := by decide
example : clampHeading "####".data = "####".data := by decide
example : subDelim '*' 1 (subDelim '*' 2 (subDelim '*' 3 "***a*b***".data)) =
    "**ab***".data := by decide
example : subDelim '*' 1 (subDelim '*' 2 (subDelim '*' 3 "**a*b**".data)) =
    "*ab**".data := by decide
example : subDelim '_' 1 (subDelim '_' 2 (subDelim '_' 3 "__a__b__".data)) =
    "ab__".data := by decide
example : subComments "<!--->".data = "<!--->".data := by decide
example : subComments "--> <!--".data = "--> <!--".data := by decide
example : subComments "<!--a--><!--b-->c".data = "c".data := by decide
example : subComments "<<!-- x -->".data = "<".data := by decide
example : subComments "a<!-- b --->c".data = "ac".data := by decide
example : subLink (subImage "[t](u) and [s](v)".data) = "t and s".data := by decide
example : subLink (subImage "[a](())".data) = "a)".data := by decide
example : subImage "![a](b(c)d)".data = "[Image: a]d)".data := by decide
example : subImage "![](u)".data = "[Image: ]".data := by decide
example : tocStartB "##  Table of Contents".data = true := by decide
example : tocStartB "#\tTable of contents".data = true := by decide
example : tocStartB "## table of contentsXX".data = true := by decide
example : tocEndB "##  x".data = true := by decide
example : tocEndB "## _u".data = true := by decide
example : tocEndB "## 9".data = true := by decide
example : tocEndB "##x".data = false := by decide
